import Mathlib

/-!
Verification of the instruction invocation context of a smart-contract
execution engine (InvokeContext and its components: InvocationStack,
ComputeMeter, LogCollector, SyscallScratch).

The repository source contains two concrete functions, `InvokeContext::new`
and `set_syscall_context`, which are embedded directly below.  The remaining
components (stack push/pop, compute metering, log collection, scratch slot
lifecycle, and the `invoke` orchestration) are declared in the specification
only; those definitions are modelled from the spec and marked as such.
-/

/-- A scratch record stored for a frame while a syscall runs.  The source's
`SyscallContext` struct is defined outside this repository; it is abstracted
as a natural number since only identity of the stored value matters. -/
abbrev SyscallContext := Nat

/-- Error kinds named by the specification (kinds, not concrete type names):
depth overflow on push, privilege escalation on push, compute exhaustion,
scratch/stack access with no active frame, program lookup failure, and pop
of an empty stack. -/
inductive SpecError where
  | CallDepthExceeded
  | PrivilegeEscalation
  | ComputeExhausted
  | CallDepthUnderflow
  | ProgramNotExecutable
  | EmptyStack
deriving DecidableEq

/-- The error type used by the source's `set_syscall_context`; only the
`CallDepth` variant of the external `InstructionError` enum is reachable
from the embedded code. -/
inductive InstructionError where
  | CallDepth
deriving DecidableEq

/-- Modelled from the spec: a LogCollector is an ordered sequence of message
strings plus a running byte-size counter, a fixed cap, and a one-time
truncation flag. -/
structure LogCollector where
  messages : List String
  bytes_written : Nat
  cap : Nat
  truncated : Bool
deriving DecidableEq

/-- Modelled from the spec: the fixed one-time marker recorded when the log
cap is first exceeded. -/
def truncatedMarker : String := "Log truncated"

/-- Modelled from the spec: `append(message)` — if the running size plus the
message length stays within the cap, append the message verbatim and add its
length to the running size; otherwise, if the truncation marker has not yet
been recorded, record the single fixed marker and set the truncated flag;
once the flag is set every further append is a no-op.  No partial message is
ever stored. -/
def LogCollector.append (lc : LogCollector) (m : String) : LogCollector :=
  if lc.truncated then lc
  else if lc.bytes_written + m.length ≤ lc.cap then
    { lc with messages := lc.messages ++ [m],
              bytes_written := lc.bytes_written + m.length }
  else
    { lc with messages := lc.messages ++ [truncatedMarker], truncated := true }

/-- Modelled from the spec: the compute meter is a single mutable counter of
remaining compute units (an unsigned 64-bit counter in the source domain,
modelled as `Nat` since it only ever decreases). -/
structure ComputeMeter where
  remaining_units : Nat
deriving DecidableEq

/-- Modelled from the spec: `new(limit)` initializes `remaining_units = limit`
(this matches the embedded `InvokeContext::new`, which initializes the meter
from `compute_budget.compute_unit_limit`). -/
def ComputeMeter.new (limit : Nat) : ComputeMeter :=
  { remaining_units := limit }

/-- Modelled from the spec: `consume(amount)` — if `amount > remaining_units`,
the meter is set to 0 and the call fails with `ComputeExhausted`; otherwise
`remaining_units -= amount` and the call succeeds.  The updated meter is
returned alongside the result. -/
def ComputeMeter.consume (m : ComputeMeter) (amount : Nat) :
    Except SpecError Unit × ComputeMeter :=
  if amount > m.remaining_units then
    (Except.error SpecError.ComputeExhausted, { remaining_units := 0 })
  else
    (Except.ok (), { remaining_units := m.remaining_units - amount })

/-- Modelled from the spec: `remaining()` read-only accessor. -/
def ComputeMeter.remaining (m : ComputeMeter) : Nat :=
  m.remaining_units

/-- Replace the last element of a list, leaving an empty list unchanged.
This is the effect of the source's `last_mut()` assignment. -/
def setLast : List α → α → List α
  | [], _ => []
  | [_], a => [a]
  | x :: y :: rest, a => x :: setLast (y :: rest) a

/-- The budget struct consumed by `InvokeContext::new`; only its
`compute_unit_limit` field is read by the embedded code. -/
structure SVMTransactionExecutionBudget where
  compute_unit_limit : Nat
deriving DecidableEq

/-- The state-bearing fields of the source's `InvokeContext` struct.  The
borrowed collaborators (`transaction_context`, `program_cache_for_tx_batch`,
`environment_config`, `execution_cost`, `timings`, `traces` contents) are
external references or opaque bookkeeping; the fields the embedded functions
read or write are kept with their source initializations. -/
structure InvokeContext where
  log_collector : Option LogCollector
  compute_budget : SVMTransactionExecutionBudget
  compute_meter : Nat
  execute_time : Option Nat
  syscall_context : List (Option SyscallContext)
  traces : List (List Nat)
deriving DecidableEq

/-- Embedded from the source (`InvokeContext::new`): the meter starts at
`compute_budget.compute_unit_limit`, `execute_time` is `None`, and
`syscall_context` and `traces` start as empty vectors. -/
def InvokeContext.new (log_collector : Option LogCollector)
    (compute_budget : SVMTransactionExecutionBudget) : InvokeContext :=
  { log_collector := log_collector
    compute_budget := compute_budget
    compute_meter := compute_budget.compute_unit_limit
    execute_time := none
    syscall_context := []
    traces := [] }

/-- One requested or held account privilege tuple: the account's index in the
transaction plus its signer and writable flags. -/
structure AccountMeta where
  index : Nat
  is_signer : Bool
  is_writable : Bool
deriving DecidableEq

/-- Modelled from the spec: one entry of the InvocationStack — the program
identifier, the ordered account privilege tuples granted to this invocation,
and the caller frame index (`none` for a top-level frame). -/
structure InstructionFrame where
  program_id : Nat
  accounts : List AccountMeta
  caller : Option Nat
deriving DecidableEq

/-- Modelled from the spec: a requested privilege set is acceptable when every
requested (account, is_signer, is_writable) tuple finds the same account among
the caller's held tuples with each requested flag implied by the held flag —
a frame can delegate a privilege it has, never manufacture one.  An account
the caller was never granted has no held tuple, so requesting it fails. -/
def privOk (held : List AccountMeta) (req : List AccountMeta) : Bool :=
  req.all fun r =>
    held.any fun c =>
      c.index == r.index && (!r.is_signer || c.is_signer) &&
        (!r.is_writable || c.is_writable)

/-- Modelled from the spec: the mutable state owned by the invocation
machinery — the InvocationStack's frames (most recently pushed frame last,
matching the appended/Vec representation of the source), the SyscallScratch
slots aligned 1:1 with the stack, the ComputeMeter, the LogCollector, and
the `max_invocation_depth` configuration constant. -/
structure ExecState where
  stack : List InstructionFrame
  scratch : List (Option SyscallContext)
  meter : ComputeMeter
  logs : LogCollector
  max_depth : Nat
deriving DecidableEq

/-- Modelled from the spec: `InvocationStack.push(program_id,
requested_accounts)` — if the stack already holds `max_depth` frames, fail
with `CallDepthExceeded` and do not push; otherwise, for a non-top-level call
(the calling frame is the current top), every requested privilege tuple must
be implied by the caller's held tuples, else the push fails with
`PrivilegeEscalation` and leaves the stack unchanged; a top-level call (empty
stack) is validated against the transaction's own grants by the outer
processor, outside this operation.  On success a new frame is appended and a
corresponding empty SyscallScratch slot is allocated. -/
def ExecState.push (s : ExecState) (pid : Nat) (req : List AccountMeta) :
    Except SpecError Unit × ExecState :=
  if s.max_depth ≤ s.stack.length then
    (Except.error SpecError.CallDepthExceeded, s)
  else
    match s.stack.getLast? with
    | some caller =>
        if privOk caller.accounts req then
          (Except.ok (),
           { s with
              stack := s.stack ++
                [{ program_id := pid, accounts := req,
                   caller := some (s.stack.length - 1) }],
              scratch := s.scratch ++ [none] })
        else (Except.error SpecError.PrivilegeEscalation, s)
    | none =>
        (Except.ok (),
         { s with
            stack := s.stack ++
              [{ program_id := pid, accounts := req, caller := none }],
            scratch := s.scratch ++ [none] })

/-- Modelled from the spec: `InvocationStack.pop()` — removes exactly the most
recently pushed frame and clears the associated SyscallScratch slot (popping
is the sole place the slot is cleared); fails with `EmptyStack` when no frame
is active. -/
def ExecState.pop (s : ExecState) : Except SpecError InstructionFrame × ExecState :=
  match s.stack.getLast? with
  | none => (Except.error SpecError.EmptyStack, s)
  | some f =>
      (Except.ok f,
       { s with stack := s.stack.dropLast, scratch := s.scratch.dropLast })

/-- Modelled from the spec: `SyscallScratch.set(value)` — writes into the slot
belonging to the current top frame, overwriting any previous value in that
slot; fails with `CallDepthUnderflow` if no frame is active (stack empty). -/
def ExecState.scratchSet (s : ExecState) (v : SyscallContext) :
    Except SpecError Unit × ExecState :=
  match s.scratch.getLast? with
  | none => (Except.error SpecError.CallDepthUnderflow, s)
  | some _ =>
      (Except.ok (), { s with scratch := setLast s.scratch (some v) })

/-- Modelled from the spec: `SyscallScratch.get()` — reads the current top
frame's slot without modifying it; returns `none` if never set for this
activation (or when no frame is active). -/
def ExecState.scratchGet (s : ExecState) : Option SyscallContext :=
  match s.scratch.getLast? with
  | none => none
  | some o => o

/-- Embedded from the source (`set_syscall_context`): overwrite the last slot
of the `syscall_context` vector with `Some syscall_context`, or fail with
`InstructionError::CallDepth` when the vector is empty (`last_mut()` returned
`None`).  The possibly-updated context is returned alongside the result. -/
def InvokeContext.set_syscall_context (ctx : InvokeContext)
    (sc : SyscallContext) : Except InstructionError Unit × InvokeContext :=
  match ctx.syscall_context with
  | [] => (Except.error InstructionError.CallDepth, ctx)
  | _ :: _ =>
      (Except.ok (),
       { ctx with syscall_context := setLast ctx.syscall_context (some sc) })

/-- Modelled from the spec: `invoke(program_id, requested_accounts)` — the
central algorithm of the orchestrator.  (1) push a frame, propagating the
push error without side effects; (2) resolve the program through the external
lookup collaborator, failing with `ProgramNotExecutable` on a miss; (3) run
the interpreter body (`runBody`, which may call back into the context);
(4) regardless of the outcome, pop the frame before returning; (5) propagate
the body's result unchanged. -/
def invoke (lookup : Nat → Bool) (pid : Nat) (req : List AccountMeta)
    (runBody : ExecState → Except SpecError Unit × ExecState)
    (s : ExecState) : Except SpecError Unit × ExecState :=
  match s.push pid req with
  | (Except.error e, s1) => (Except.error e, s1)
  | (Except.ok _, s1) =>
      let br := if lookup pid then runBody s1
                else (Except.error SpecError.ProgramNotExecutable, s1)
      match br.2.pop with
      | (Except.error e2, s3) => (Except.error e2, s3)
      | (Except.ok _, s3) => (br.1, s3)

/-- Modelled from the spec: the actions an interpreter body can take through
its execution handle — consume compute units, append a log message, write the
current frame's scratch slot, request a nested invocation, sequence two
actions, or do nothing. -/
inductive Act where
  | nop
  | consume (n : Nat)
  | logMsg (m : String)
  | scratchWrite (v : SyscallContext)
  | call (pid : Nat) (req : List AccountMeta) (body : Act)
  | seq (a b : Act)
deriving DecidableEq

/-- Modelled from the spec: run one interpreter action against the context
state.  `consume` meters work and fails the body on exhaustion, `logMsg`
appends to the LogCollector, `scratchWrite` writes the top scratch slot, and
`call` performs a full nested `invoke` whose body is the callee's own action;
`seq` short-circuits on the first error. -/
def runAct (lookup : Nat → Bool) : Act → ExecState → Except SpecError Unit × ExecState
  | Act.nop, s => (Except.ok (), s)
  | Act.consume n, s =>
      ((s.meter.consume n).1, { s with meter := (s.meter.consume n).2 })
  | Act.logMsg m, s => (Except.ok (), { s with logs := s.logs.append m })
  | Act.scratchWrite v, s => s.scratchSet v
  | Act.call pid req body, s =>
      invoke lookup pid req (fun t => runAct lookup body t) s
  | Act.seq a b, s =>
      match runAct lookup a s with
      | (Except.ok _, s1) => runAct lookup b s1
      | (Except.error e, s1) => (Except.error e, s1)

/-- A raw stack operation, for stating stack-depth invariants over arbitrary
operation sequences. -/
inductive StackOp where
  | pushOp (pid : Nat) (req : List AccountMeta)
  | popOp
deriving DecidableEq

/-- Run a sequence of raw stack operations, returning the number of
successful pushes, the number of successful pops, and the final state. -/
def countRun (s : ExecState) : List StackOp → Nat × Nat × ExecState
  | [] => (0, 0, s)
  | StackOp.pushOp pid req :: rest =>
      match s.push pid req with
      | (Except.ok _, s1) =>
          match countRun s1 rest with
          | (p, q, s2) => (p + 1, q, s2)
      | (Except.error _, s1) =>
          match countRun s1 rest with
          | (p, q, s2) => (p, q, s2)
  | StackOp.popOp :: rest =>
      match s.pop with
      | (Except.ok _, s1) =>
          match countRun s1 rest with
          | (p, q, s2) => (p, q + 1, s2)
      | (Except.error _, s1) =>
          match countRun s1 rest with
          | (p, q, s2) => (p, q, s2)

/-- The initial context state at transaction start: empty stack and scratch,
a fresh meter at `limit` units, an empty log bounded by `cap`, and the
configured `max_invocation_depth`. -/
def initState (maxd cap limit : Nat) : ExecState :=
  { stack := []
    scratch := []
    meter := ComputeMeter.new limit
    logs := { messages := [], bytes_written := 0, cap := cap, truncated := false }
    max_depth := maxd }

/-- A concrete top-level frame holding full privileges on account 0, used to
instantiate theorems with hypotheses on concrete inputs. -/
def wFrame : InstructionFrame :=
  { program_id := 0
    accounts := [{ index := 0, is_signer := true, is_writable := true }]
    caller := none }

/-- A concrete empty log with a cap of 30 bytes. -/
def wLogs : LogCollector :=
  { messages := [], bytes_written := 0, cap := 30, truncated := false }

/-- A concrete state with one active frame and room for one more. -/
def wState : ExecState :=
  { stack := [wFrame]
    scratch := [none]
    meter := { remaining_units := 5 }
    logs := wLogs
    max_depth := 2 }

/-- A concrete state whose depth already equals `max_invocation_depth`. -/
def wFull : ExecState :=
  { wState with max_depth := 1 }

/-- A concrete invoke context with a two-slot syscall scratch vector. -/
def wCtx : InvokeContext :=
  { log_collector := none
    compute_budget := { compute_unit_limit := 100 }
    compute_meter := 100
    execute_time := none
    syscall_context := [none, some 3]
    traces := [] }

theorem setLast_eq (a : α) : ∀ l : List α, l ≠ [] → setLast l a = l.dropLast ++ [a]
  | [_], _ => rfl
  | x :: y :: t, _ => by
      have ih := setLast_eq a (y :: t) (List.cons_ne_nil y t)
      simp [setLast, ih]

theorem length_setLast (a : α) (l : List α) : (setLast l a).length = l.length := by
  cases l with
  | nil => rfl
  | cons x t =>
      rw [setLast_eq a (x :: t) (List.cons_ne_nil x t)]
      simp

theorem getLast?_setLast (a : α) (l : List α) (h : l ≠ []) :
    (setLast l a).getLast? = some a := by
  rw [setLast_eq a l h, List.getLast?_concat]

theorem dropLast_setLast (a : α) (l : List α) (h : l ≠ []) :
    (setLast l a).dropLast = l.dropLast := by
  rw [setLast_eq a l h, List.dropLast_concat]

theorem push_cases (s : ExecState) (pid : Nat) (req : List AccountMeta) :
    (∃ e, s.push pid req = (Except.error e, s)) ∨
    (s.stack.length < s.max_depth ∧ ∃ c,
      s.push pid req = (Except.ok (),
        { s with
           stack := s.stack ++
             [{ program_id := pid, accounts := req, caller := c }],
           scratch := s.scratch ++ [none] })) := by
  unfold ExecState.push
  by_cases h : s.max_depth ≤ s.stack.length
  · exact Or.inl ⟨SpecError.CallDepthExceeded, by simp [h]⟩
  · cases hc : s.stack.getLast? with
    | none => exact Or.inr ⟨by omega, none, by simp [h, hc]⟩
    | some caller =>
        by_cases hp : privOk caller.accounts req
        · exact Or.inr ⟨by omega, some (s.stack.length - 1), by simp [h, hc, hp]⟩
        · exact Or.inl ⟨SpecError.PrivilegeEscalation, by simp [h, hc, hp]⟩

theorem pop_cases (s : ExecState) :
    (s.stack = [] ∧ s.pop = (Except.error SpecError.EmptyStack, s)) ∨
    (∃ f, s.stack.getLast? = some f ∧
      s.pop = (Except.ok f,
        { s with stack := s.stack.dropLast, scratch := s.scratch.dropLast })) := by
  cases hc : s.stack.getLast? with
  | none =>
      exact Or.inl ⟨List.getLast?_eq_none_iff.mp hc, by simp [ExecState.pop, hc]⟩
  | some f =>
      exact Or.inr ⟨f, rfl, by simp [ExecState.pop, hc]⟩

theorem invoke_stack (lookup : Nat → Bool) (pid : Nat) (req : List AccountMeta)
    (runBody : ExecState → Except SpecError Unit × ExecState)
    (hrb : ∀ t, (runBody t).2.stack = t.stack) (s : ExecState) :
    (invoke lookup pid req runBody s).2.stack = s.stack := by
  unfold invoke
  rcases push_cases s pid req with ⟨e, he⟩ | ⟨hlt, c, hok⟩
  · rw [he]
  · rw [hok]
    dsimp only
    rcases hb : (if lookup pid = true then
        runBody { s with
          stack := s.stack ++
            [{ program_id := pid, accounts := req, caller := c }],
          scratch := s.scratch ++ [none] }
      else (Except.error SpecError.ProgramNotExecutable,
        { s with
          stack := s.stack ++
            [{ program_id := pid, accounts := req, caller := c }],
          scratch := s.scratch ++ [none] })) with ⟨res, s2⟩
    have hs2 : s2.stack = s.stack ++
        [{ program_id := pid, accounts := req, caller := c }] := by
      by_cases hl : lookup pid = true
      · rw [if_pos hl] at hb
        have h2 := hrb { s with
          stack := s.stack ++
            [{ program_id := pid, accounts := req, caller := c }],
          scratch := s.scratch ++ [none] }
        rw [hb] at h2
        exact h2
      · rw [if_neg hl] at hb
        injection hb with h1 h2
        rw [← h2]
    rcases pop_cases s2 with ⟨hnil, _⟩ | ⟨f, hgl, hpop⟩
    · rw [hs2] at hnil
      simp at hnil
    · simp [hpop, hs2]

theorem scratchSet_stack (s : ExecState) (v : SyscallContext) :
    (s.scratchSet v).2.stack = s.stack := by
  unfold ExecState.scratchSet
  cases h : s.scratch.getLast? <;> simp [h]

theorem runAct_call_eq (lookup : Nat → Bool) (pid : Nat)
    (req : List AccountMeta) (body : Act) (s : ExecState) :
    runAct lookup (Act.call pid req body) s =
      invoke lookup pid req (fun t => runAct lookup body t) s := by
  simp [runAct]

theorem runAct_stack (lookup : Nat → Bool) (a : Act) :
    ∀ s : ExecState, (runAct lookup a s).2.stack = s.stack := by
  induction a with
  | nop => intro s; simp [runAct]
  | consume n => intro s; simp [runAct]
  | logMsg m => intro s; simp [runAct]
  | scratchWrite v => intro s; rw [runAct]; exact scratchSet_stack s v
  | call pid req body ih =>
      intro s
      rw [runAct_call_eq]
      exact invoke_stack lookup pid req _ ih s
  | seq a b iha ihb =>
      intro s
      rw [runAct]
      rcases h : runAct lookup a s with ⟨res, s1⟩
      have h1 : s1.stack = s.stack := by
        have := iha s
        rw [h] at this
        exact this
      cases res with
      | ok u => rw [← h1]; exact ihb s1
      | error e => exact h1

theorem countRun_inv (ops : List StackOp) :
    ∀ s : ExecState, s.stack.length ≤ s.max_depth →
      (countRun s ops).2.2.stack.length + (countRun s ops).2.1 =
        s.stack.length + (countRun s ops).1 ∧
      (countRun s ops).2.2.stack.length ≤ (countRun s ops).2.2.max_depth ∧
      (countRun s ops).2.2.max_depth = s.max_depth := by
  induction ops with
  | nil =>
      intro s h
      exact ⟨rfl, h, rfl⟩
  | cons op rest ih =>
      intro s h
      cases op with
      | pushOp pid req =>
          rcases push_cases s pid req with ⟨e, he⟩ | ⟨hlt, c, hok⟩
          · rw [countRun, he]
            dsimp only
            rcases hcr : countRun s rest with ⟨p, q, s2⟩
            have ihh := ih s h
            rw [hcr] at ihh
            exact ihh
          · rw [countRun, hok]
            dsimp only
            have hlen : ({ s with
                stack := s.stack ++
                  [{ program_id := pid, accounts := req, caller := c }],
                scratch := s.scratch ++ [none] } : ExecState).stack.length =
                s.stack.length + 1 := by
              simp
            have ihh := ih { s with
                stack := s.stack ++
                  [{ program_id := pid, accounts := req, caller := c }],
                scratch := s.scratch ++ [none] } (by rw [hlen]; exact hlt)
            rcases hcr : countRun { s with
                stack := s.stack ++
                  [{ program_id := pid, accounts := req, caller := c }],
                scratch := s.scratch ++ [none] } rest with ⟨p, q, s2⟩
            rw [hcr] at ihh
            rw [hlen] at ihh
            dsimp only at ihh ⊢
            exact ⟨by omega, ihh.2.1, ihh.2.2⟩
      | popOp =>
          rcases pop_cases s with ⟨hnil, hpop⟩ | ⟨f, hgl, hpop⟩
          · rw [countRun, hpop]
            dsimp only
            rcases hcr : countRun s rest with ⟨p, q, s2⟩
            have ihh := ih s h
            rw [hcr] at ihh
            exact ihh
          · rw [countRun, hpop]
            dsimp only
            have hne : s.stack ≠ [] := by
              intro hemp
              rw [hemp] at hgl
              exact Option.noConfusion hgl
            have hposlen : 0 < s.stack.length := List.length_pos.mpr hne
            have hlen : ({ s with
                stack := s.stack.dropLast,
                scratch := s.scratch.dropLast } : ExecState).stack.length =
                s.stack.length - 1 := by
              simp
            have ihh := ih { s with
                stack := s.stack.dropLast,
                scratch := s.scratch.dropLast } (by rw [hlen]; dsimp only; omega)
            rcases hcr : countRun { s with
                stack := s.stack.dropLast,
                scratch := s.scratch.dropLast } rest with ⟨p, q, s2⟩
            rw [hcr] at ihh
            rw [hlen] at ihh
            dsimp only at ihh ⊢
            exact ⟨by omega, ihh.2.1, ihh.2.2⟩

theorem append_fits (lc : LogCollector) (m : String)
    (ht : lc.truncated = false) (hfit : lc.bytes_written + m.length ≤ lc.cap) :
    LogCollector.append lc m =
      { lc with
         messages := lc.messages ++ [m],
         bytes_written := lc.bytes_written + m.length } := by
  unfold LogCollector.append
  rw [ht]
  simp [hfit]

theorem logFold (msgs : List String) :
    ∀ lc : LogCollector, lc.truncated = false →
      lc.bytes_written + (msgs.map String.length).sum ≤ lc.cap →
      msgs.foldl LogCollector.append lc =
        { lc with
           messages := lc.messages ++ msgs,
           bytes_written := lc.bytes_written + (msgs.map String.length).sum } := by
  induction msgs with
  | nil =>
      intro lc ht hle
      simp
  | cons m rest ih =>
      intro lc ht hle
      have hsum : (List.map String.length (m :: rest)).sum =
          m.length + (List.map String.length rest).sum := by
        simp
      have hfit : lc.bytes_written + m.length ≤ lc.cap := by
        rw [hsum] at hle
        omega
      rw [List.foldl_cons, append_fits lc m ht hfit]
      have ih2 := ih { lc with
          messages := lc.messages ++ [m],
          bytes_written := lc.bytes_written + m.length }
        (by dsimp only; exact ht)
        (by dsimp only; rw [hsum] at hle; omega)
      rw [ih2]
      dsimp only
      rw [hsum]
      simp [List.append_assoc]
      omega

/-- Claim C1: for every sequence of operations an interpreter body can
perform (metering, logging, scratch writes, and arbitrarily nested
invocations), every successful push performed by `invoke` is matched by
exactly one pop: `invoke` restores the invocation stack to exactly its
pre-call frames regardless of whether the body succeeded or returned any
error, so no reachable execution leaves a pushed frame on the stack after
the `invoke` call returns. -/
theorem c1_invoke_always_pops (lookup : Nat → Bool) (pid : Nat)
    (req : List AccountMeta) (body : Act) (s : ExecState) :
    (invoke lookup pid req (fun t => runAct lookup body t) s).2.stack =
      s.stack :=
  invoke_stack lookup pid req _ (runAct_stack lookup body) s

/-- Claim C3: whenever the stack depth already equals `max_invocation_depth`,
any push fails with `CallDepthExceeded` and returns the state completely
unchanged — no frame is appended and the contents are identical. -/
theorem c3_push_at_max_depth (s : ExecState) (pid : Nat)
    (req : List AccountMeta) (h : s.stack.length = s.max_depth) :
    s.push pid req = (Except.error SpecError.CallDepthExceeded, s) := by
  unfold ExecState.push
  rw [if_pos (by omega)]

/-- Witness for C3 at the concrete full state `wFull`. -/
theorem c3_witness :
    wFull.stack.length = wFull.max_depth ∧
    wFull.push 3 [] = (Except.error SpecError.CallDepthExceeded, wFull) :=
  ⟨rfl, c3_push_at_max_depth wFull 3 [] rfl⟩

/-- Claim C4: a meter constructed with `new(limit)` has `remaining() = limit`;
`consume(amount)` zeroes the meter and fails with `ComputeExhausted` when
`amount` exceeds the remaining units, and otherwise subtracts exactly
`amount` and succeeds; concretely, from `limit = 1000`, `consume(400)`
succeeds leaving 600 and a following `consume(700)` fails leaving 0. -/
theorem c4_compute_meter :
    (∀ limit : Nat, (ComputeMeter.new limit).remaining = limit) ∧
    (∀ (m : ComputeMeter) (amount : Nat), m.remaining_units < amount →
      m.consume amount =
        (Except.error SpecError.ComputeExhausted, { remaining_units := 0 })) ∧
    (∀ (m : ComputeMeter) (amount : Nat), amount ≤ m.remaining_units →
      m.consume amount =
        (Except.ok (), { remaining_units := m.remaining_units - amount })) ∧
    (ComputeMeter.new 1000).consume 400 =
      (Except.ok (), { remaining_units := 600 }) ∧
    ((ComputeMeter.new 1000).consume 400).2.remaining = 600 ∧
    (((ComputeMeter.new 1000).consume 400).2.consume 700).1 =
      Except.error SpecError.ComputeExhausted ∧
    (((ComputeMeter.new 1000).consume 400).2.consume 700).2.remaining = 0 := by
  refine ⟨fun limit => rfl, ?_, ?_, rfl, rfl, rfl, rfl⟩
  · intro m a h
    unfold ComputeMeter.consume
    rw [if_pos (by omega)]
  · intro m a h
    unfold ComputeMeter.consume
    rw [if_neg (by omega)]

/-- Witness for C4: the conditional clauses instantiated on a meter holding
5 units, consuming 7 (exhaustion) and 3 (success). -/
theorem c4_witness :
    ({ remaining_units := 5 } : ComputeMeter).remaining_units < 7 ∧
    ComputeMeter.consume { remaining_units := 5 } 7 =
      (Except.error SpecError.ComputeExhausted, { remaining_units := 0 }) ∧
    3 ≤ ({ remaining_units := 5 } : ComputeMeter).remaining_units ∧
    ComputeMeter.consume { remaining_units := 5 } 3 =
      (Except.ok (), { remaining_units := 2 }) :=
  ⟨by decide, c4_compute_meter.2.1 { remaining_units := 5 } 7 (by decide),
   by decide, c4_compute_meter.2.2.1 { remaining_units := 5 } 3 (by decide)⟩

/-- Claim C5: running any sequence of push and pop operations from the
initial (depth 0) state, the final depth plus the number of successful pops
equals the number of successful pushes — i.e. depth = #pushes − #pops — and
the depth never exceeds `max_invocation_depth`.  Since every prefix of a
sequence is itself a sequence, this settles the property after every
prefix. -/
theorem c5_depth_balance (maxd cap limit : Nat) (ops : List StackOp) :
    (countRun (initState maxd cap limit) ops).2.2.stack.length +
        (countRun (initState maxd cap limit) ops).2.1 =
      (countRun (initState maxd cap limit) ops).1 ∧
    (countRun (initState maxd cap limit) ops).2.2.stack.length ≤ maxd := by
  obtain ⟨h1, h2, h3⟩ :=
    countRun_inv ops (initState maxd cap limit) (Nat.zero_le maxd)
  have hs : (initState maxd cap limit).stack.length = 0 := rfl
  have hm : (initState maxd cap limit).max_depth = maxd := rfl
  rw [hs] at h1
  rw [hm] at h3
  exact ⟨by omega, by omega⟩

/-- Claim C10: calling the source's `set_syscall_context` with no active
slot returns the `CallDepth` error and leaves every field of the context
exactly as it was (the failed write is atomic); in particular it always
fails this way on a freshly constructed `InvokeContext`, whose
`syscall_context` starts as the empty sequence. -/
theorem c10_set_syscall_context_atomic (ctx : InvokeContext)
    (sc : SyscallContext) :
    (ctx.syscall_context = [] →
      ctx.set_syscall_context sc =
        (Except.error InstructionError.CallDepth, ctx)) ∧
    (∀ (lc : Option LogCollector) (cb : SVMTransactionExecutionBudget),
      (InvokeContext.new lc cb).set_syscall_context sc =
        (Except.error InstructionError.CallDepth, InvokeContext.new lc cb)) := by
  constructor
  · intro h
    unfold InvokeContext.set_syscall_context
    rw [h]
  · intro lc cb
    rfl

/-- Witness for C10 on a freshly constructed context. -/
theorem c10_witness :
    (InvokeContext.new none { compute_unit_limit := 7 }).syscall_context =
      [] ∧
    (InvokeContext.new none { compute_unit_limit := 7 }).set_syscall_context
        4 =
      (Except.error InstructionError.CallDepth,
        InvokeContext.new none { compute_unit_limit := 7 }) :=
  ⟨rfl,
   (c10_set_syscall_context_atomic
     (InvokeContext.new none { compute_unit_limit := 7 }) 4).1 rfl⟩

/-- Counterexample to Claim C2 as stated: at `wFull` the requested tuple
(account 0, signer, writable) is exactly implied by the calling frame's held
tuple, yet the push does not succeed — the stack already sits at
`max_invocation_depth`, so it fails with `CallDepthExceeded`.  The claim's
success branch omits a depth-bound hypothesis. -/
theorem c2_counterexample :
    privOk wFrame.accounts
        [{ index := 0, is_signer := true, is_writable := true }] = true ∧
    wFull.stack.getLast? = some wFrame ∧
    (wFull.push 1
        [{ index := 0, is_signer := true, is_writable := true }]).1 =
      Except.error SpecError.CallDepthExceeded ∧
    (wFull.push 1
        [{ index := 0, is_signer := true, is_writable := true }]).1 ≠
      Except.ok () :=
  ⟨rfl, rfl, rfl, fun h => Except.noConfusion h⟩

/-- Claim C2 (amended): for every non-top-level push performed while the
stack depth is strictly below `max_invocation_depth`: if every requested
(account, is_signer, is_writable) tuple's flags are implied by the calling
frame's flags for the same account, the push succeeds and appends the frame;
if the requested set is a strict superset of the caller's held set (any flag
not held, or any account not granted), the push fails with
`PrivilegeEscalation` and leaves the state — depth and contents — exactly
unchanged. -/
theorem c2_push_privileges (s : ExecState) (pid : Nat)
    (req : List AccountMeta) (caller : InstructionFrame)
    (htop : s.stack.getLast? = some caller)
    (hdepth : s.stack.length < s.max_depth) :
    (privOk caller.accounts req = true →
      s.push pid req = (Except.ok (),
        { s with
           stack := s.stack ++
             [{ program_id := pid, accounts := req,
                caller := some (s.stack.length - 1) }],
           scratch := s.scratch ++ [none] })) ∧
    (privOk caller.accounts req = false →
      s.push pid req = (Except.error SpecError.PrivilegeEscalation, s)) := by
  constructor
  · intro hp
    unfold ExecState.push
    rw [if_neg (by omega), htop]
    dsimp only
    rw [hp]
    simp
  · intro hp
    unfold ExecState.push
    rw [if_neg (by omega), htop]
    dsimp only
    rw [hp]
    simp

/-- Witness for the amended C2 at `wState`: a delegating push (writable only,
on the granted account 0) succeeds, while a push requesting the ungranted
account 1 fails with `PrivilegeEscalation` and leaves the state unchanged. -/
theorem c2_witness :
    (wState.stack.getLast? = some wFrame ∧
     wState.stack.length < wState.max_depth) ∧
    (privOk wFrame.accounts
        [{ index := 0, is_signer := false, is_writable := true }] = true ∧
     wState.push 1
        [{ index := 0, is_signer := false, is_writable := true }] =
       (Except.ok (),
        { wState with
           stack := wState.stack ++
             [{ program_id := 1,
                accounts :=
                  [{ index := 0, is_signer := false, is_writable := true }],
                caller := some (wState.stack.length - 1) }],
           scratch := wState.scratch ++ [none] })) ∧
    (privOk wFrame.accounts
        [{ index := 1, is_signer := true, is_writable := false }] = false ∧
     wState.push 2
        [{ index := 1, is_signer := true, is_writable := false }] =
       (Except.error SpecError.PrivilegeEscalation, wState)) :=
  ⟨⟨rfl, by decide⟩,
   ⟨rfl,
    (c2_push_privileges wState 1
      [{ index := 0, is_signer := false, is_writable := true }]
      wFrame rfl (by decide)).1 rfl⟩,
   ⟨rfl,
    (c2_push_privileges wState 2
      [{ index := 1, is_signer := true, is_writable := false }]
      wFrame rfl (by decide)).2 rfl⟩⟩

/-- Claim C6: the source's `set_syscall_context` (the scratch `set`
operation) fails with the call-depth error (`InstructionError::CallDepth`,
the spec's `CallDepthUnderflow` kind) when no slot is active — the
`syscall_context` vector is empty — leaving the context unchanged; otherwise
it succeeds, writing `Some value` into the slot belonging to the current top
frame (the last slot) and overwriting any previous value held there, while
every other slot and field is untouched. -/
theorem c6_set_syscall_context (ctx : InvokeContext) (sc : SyscallContext) :
    (ctx.syscall_context = [] →
      ctx.set_syscall_context sc =
        (Except.error InstructionError.CallDepth, ctx)) ∧
    (ctx.syscall_context ≠ [] →
      (ctx.set_syscall_context sc).1 = Except.ok () ∧
      (ctx.set_syscall_context sc).2.syscall_context.getLast? =
        some (some sc) ∧
      (ctx.set_syscall_context sc).2.syscall_context.dropLast =
        ctx.syscall_context.dropLast ∧
      (ctx.set_syscall_context sc).2.syscall_context.length =
        ctx.syscall_context.length ∧
      (ctx.set_syscall_context sc).2 =
        { ctx with
           syscall_context := setLast ctx.syscall_context (some sc) }) := by
  constructor
  · intro h
    unfold InvokeContext.set_syscall_context
    rw [h]
  · intro h
    cases hc : ctx.syscall_context with
    | nil => exact absurd hc h
    | cons x t =>
        unfold InvokeContext.set_syscall_context
        rw [hc]
        dsimp only
        exact ⟨rfl, getLast?_setLast (some sc) (x :: t) (List.cons_ne_nil x t),
          dropLast_setLast (some sc) (x :: t) (List.cons_ne_nil x t),
          length_setLast (some sc) (x :: t), rfl⟩

/-- Witness for C6 on `wCtx`, whose syscall vector holds two slots: the
write lands in the last slot, the first slot survives untouched. -/
theorem c6_witness :
    wCtx.syscall_context ≠ [] ∧
    (wCtx.set_syscall_context 7).1 = Except.ok () ∧
    (wCtx.set_syscall_context 7).2.syscall_context = [none, some 7] :=
  ⟨by decide, ((c6_set_syscall_context wCtx 7).2 (by decide)).1, rfl⟩

/-- Claim C7: on any state with an active frame (and the scratch sequence
aligned 1:1 with the stack), `set(v)` followed by `get()` with no
intervening pop returns exactly `v`; and whenever a frame is popped and a
new frame is successfully pushed at the same depth, `get()` on the new
frame returns `none` — the slot is cleared on pop, so no scratch record
leaks from one frame's activation to another's. -/
theorem c7_scratch_lifecycle (s : ExecState) (v : SyscallContext)
    (pid : Nat) (req : List AccountMeta) :
    (s.stack ≠ [] → s.scratch.length = s.stack.length →
      (s.scratchSet v).1 = Except.ok () ∧
      (s.scratchSet v).2.scratchGet = some v) ∧
    ((ExecState.push (s.pop).2 pid req).1 = Except.ok () →
      (ExecState.push (s.pop).2 pid req).2.scratchGet = none) := by
  constructor
  · intro hne hlen
    have hscr : s.scratch ≠ [] := by
      intro h0
      rw [h0] at hlen
      have h1 : s.stack.length = 0 := by simpa using hlen.symm
      exact hne (List.length_eq_zero.mp h1)
    obtain ⟨o, ho⟩ : ∃ o, s.scratch.getLast? = some o := by
      cases hg : s.scratch.getLast? with
      | none => exact absurd (List.getLast?_eq_none_iff.mp hg) hscr
      | some o => exact ⟨o, rfl⟩
    unfold ExecState.scratchSet
    rw [ho]
    dsimp only
    refine ⟨rfl, ?_⟩
    unfold ExecState.scratchGet
    dsimp only
    rw [getLast?_setLast (some v) s.scratch hscr]
  · intro hok
    rcases push_cases (s.pop).2 pid req with ⟨e, he⟩ | ⟨hlt, c, hpk⟩
    · rw [he] at hok
      exact Except.noConfusion hok
    · rw [hpk]
      unfold ExecState.scratchGet
      dsimp only
      rw [List.getLast?_concat]

/-- Witness for C7 at `wState`: writing 9 and reading it back on the active
frame, then popping and pushing a new frame at the same depth and reading
`none`. -/
theorem c7_witness :
    (wState.stack ≠ [] ∧ wState.scratch.length = wState.stack.length ∧
     (ExecState.push (wState.pop).2 6 []).1 = Except.ok ()) ∧
    ((wState.scratchSet 9).1 = Except.ok () ∧
     (wState.scratchSet 9).2.scratchGet = some 9) ∧
    (ExecState.push (wState.pop).2 6 []).2.scratchGet = none :=
  ⟨⟨by decide, rfl, rfl⟩,
   (c7_scratch_lifecycle wState 9 6 []).1 (by decide) rfl,
   (c7_scratch_lifecycle wState 9 6 []).2 rfl⟩

/-- Claim C8: appends whose cumulative size stays within the cap are stored
verbatim, in call order, each adding its length to the running size; the
first append that would exceed the cap stores no part of that message but
records exactly the single fixed truncation marker and sets the truncated
flag; and once the flag is set every further append is a no-op — so no
partial message is ever stored and at most one marker ever appears. -/
theorem c8_log_collector (lc : LogCollector) (m : String)
    (msgs : List String) :
    (lc.truncated = false → lc.bytes_written + m.length ≤ lc.cap →
      lc.append m =
        { lc with
           messages := lc.messages ++ [m],
           bytes_written := lc.bytes_written + m.length }) ∧
    (lc.truncated = false → lc.cap < lc.bytes_written + m.length →
      lc.append m =
        { lc with
           messages := lc.messages ++ [truncatedMarker],
           truncated := true }) ∧
    (lc.truncated = true → lc.append m = lc) ∧
    (lc.truncated = false →
      lc.bytes_written + (msgs.map String.length).sum ≤ lc.cap →
      (msgs.foldl LogCollector.append lc).messages = lc.messages ++ msgs) := by
  refine ⟨append_fits lc m, ?_, ?_, ?_⟩
  · intro ht hgt
    unfold LogCollector.append
    rw [ht, if_neg (by simp), if_neg (by omega)]
  · intro ht
    unfold LogCollector.append
    rw [ht, if_pos rfl]
  · intro ht hle
    rw [logFold msgs lc ht hle]

/-- Witness for C8: on the empty 30-byte log a short message is stored
verbatim; on a 1-byte log the same message overflows and only the marker is
recorded; a truncated log absorbs appends unchanged; and a fitting sequence
is retained in order. -/
theorem c8_witness :
    (wLogs.truncated = false ∧
     wLogs.bytes_written + "hi".length ≤ wLogs.cap ∧
     wLogs.append "hi" =
       { wLogs with
          messages := wLogs.messages ++ ["hi"],
          bytes_written := wLogs.bytes_written + "hi".length }) ∧
    (({ messages := [], bytes_written := 0, cap := 1, truncated := false } :
        LogCollector).cap <
       0 + "hi".length ∧
     LogCollector.append
        { messages := [], bytes_written := 0, cap := 1, truncated := false }
        "hi" =
       { messages := [truncatedMarker], bytes_written := 0, cap := 1,
         truncated := true }) ∧
    LogCollector.append
        { messages := ["x"], bytes_written := 1, cap := 1, truncated := true }
        "hi" =
      { messages := ["x"], bytes_written := 1, cap := 1, truncated := true } ∧
    (["ab", "c"].foldl LogCollector.append wLogs).messages =
      wLogs.messages ++ ["ab", "c"] :=
  ⟨⟨rfl, by decide,
    (c8_log_collector wLogs "hi" []).1 rfl (by decide)⟩,
   ⟨by decide,
    (c8_log_collector
      { messages := [], bytes_written := 0, cap := 1, truncated := false }
      "hi" []).2.1 rfl (by decide)⟩,
   (c8_log_collector
     { messages := ["x"], bytes_written := 1, cap := 1, truncated := true }
     "hi" []).2.2.1 rfl,
   (c8_log_collector wLogs "" ["ab", "c"]).2.2.2 rfl (by decide)⟩

/-- Claim C9: `pop` always removes exactly the most recently pushed frame
when at least one frame is active — returning that frame and dropping only
it (with its scratch slot) — and fails with `EmptyStack`, leaving the state
unchanged, when called with no active frame; the `EmptyStack` case signals
a violated internal invariant of the orchestration. -/
theorem c9_pop (s : ExecState) :
    (s.stack = [] → s.pop = (Except.error SpecError.EmptyStack, s)) ∧
    (∀ f, s.stack.getLast? = some f →
      s.pop = (Except.ok f,
        { s with
           stack := s.stack.dropLast,
           scratch := s.scratch.dropLast })) := by
  constructor
  · intro h
    unfold ExecState.pop
    rw [h]
    rfl
  · intro f hf
    unfold ExecState.pop
    rw [hf]

/-- Witness for C9: popping `wState` removes exactly its single (most
recently pushed) frame, and popping the empty initial state fails with
`EmptyStack`. -/
theorem c9_witness :
    (wState.stack.getLast? = some wFrame ∧
     wState.pop = (Except.ok wFrame,
       { wState with
          stack := wState.stack.dropLast,
          scratch := wState.scratch.dropLast })) ∧
    ((initState 4 0 0).stack = [] ∧
     (initState 4 0 0).pop =
       (Except.error SpecError.EmptyStack, initState 4 0 0)) :=
  ⟨⟨rfl, (c9_pop wState).2 wFrame rfl⟩,
   ⟨rfl, (c9_pop (initState 4 0 0)).1 rfl⟩⟩
